import Mathlib

/-!
Verification of the inventory core of the kucunguanli warehouse-management
application.  The definitions below are a shallow embedding of the
TypeScript source: the browser-local record store becomes an explicit
`DB` state record, identifiers become naturals drawn from a `nextId`
counter, JS numbers used as quantities become `Int`, optional / falsy
string fields become `Option`, and every mutating page handler becomes a
state-passing function returning the new state together with the error
outcome (a thrown error before the first write returns the input state
unchanged, exactly as the synchronous `try`/`catch` blocks do).
Wall-clock timestamp fields (`lastUpdated`, `createdAt`, `updatedAt`,
`transactionDate`) are carried by no claim and are omitted from the
records; the signal-watermark timestamps of the sync loop are modelled
explicitly as integers.
-/

namespace Kucun

/-- Modules of the permission model (`src/unnamed/part_004`). -/
inductive Module where
  | dashboard
  | inventory
  | stock_in
  | stock_out
  | reports
  | users
deriving DecidableEq, Repr

/-- Per-module permissions (`src/unnamed/part_004`). -/
inductive Permission where
  | view
  | edit
  | delete
  | manage_users
  | manage_settings
deriving DecidableEq, Repr

/-- Roles (`src/unnamed/part_004`). -/
inductive Role where
  | admin
  | manager
  | staff
deriving DecidableEq, Repr

/-- A user as far as the permission evaluator reads it: role, active flag
and the per-module permission configuration.  The TS
`permissions[module]` lookup may be absent; the total function with
default `[]` models `permissions[module]?.includes(p) || false`. -/
structure User where
  role : Role
  isActive : Bool
  permissions : Module → List Permission

/-- `usePermissions.hasPermission` from `src/src/models/Material.ts`:
absent or inactive users always fail; the admin role bypasses the
per-module check; otherwise membership in the configured list. -/
def hasPermission (currentUser : Option User) (module : Module) (permission : Permission) : Bool :=
  match currentUser with
  | none => false
  | some u =>
    if u.isActive = false then false
    else if u.role = Role.admin then true
    else (u.permissions module).contains permission

/-- `InventoryItem` (`src/src/models/Inventory.ts`), timestamp field omitted. -/
structure InventoryItem where
  id : Nat
  materialId : Nat
  quantity : Int
  alertThreshold : Int
deriving DecidableEq, Repr

/-- Transaction kinds (`src/src/models/Inventory.ts`). -/
inductive TxType where
  | stock_in
  | stock_out
  | adjustment
deriving DecidableEq, Repr

/-- `InventoryTransaction` (`src/src/models/Inventory.ts`); `referenceId`
is an optional string in TS where the empty string is falsy, modelled as
`Option Nat` with `none` for absent or empty. -/
structure InventoryTransaction where
  id : Nat
  materialId : Nat
  type : TxType
  quantity : Int
  referenceId : Option Nat
  notes : String
  createdBy : String
deriving DecidableEq, Repr

/-- `Material` (`src/src/models/Material.ts`), restricted to the fields
the inventory pages read. -/
structure Material where
  id : Nat
  name : String
  unit : String
deriving DecidableEq, Repr

/-- Order lifecycle status (`src/src/models/Inventory.ts` StockIn part). -/
inductive OrderStatus where
  | draft
  | completed
  | cancelled
deriving DecidableEq, Repr

/-- `StockInOrder` header (`src/src/models/Inventory.ts` StockIn part),
timestamps omitted. -/
structure StockInOrderRec where
  id : Nat
  orderNumber : String
  supplierId : Nat
  projectId : Option Nat
  orderDate : String
  status : OrderStatus
  notes : String
deriving DecidableEq, Repr

/-- `StockInItem` line record. -/
structure StockInItemRec where
  id : Nat
  orderId : Nat
  materialId : Nat
  quantity : Int
  unitPrice : Int
  totalPrice : Int
  notes : Option String
deriving DecidableEq, Repr

/-- The persisted collections of `localStorageService.ts` that the
claims touch, plus the id counter standing for `generateId`. -/
structure DB where
  materials : List Material
  inventory : List InventoryItem
  transactions : List InventoryTransaction
  stockInOrders : List StockInOrderRec
  stockInItems : List StockInItemRec
  nextId : Nat
deriving Repr

/-- `LocalStorageService.getById`: first record with the given id. -/
def serviceGetById (getId : α → Nat) (items : List α) (i : Nat) : Option α :=
  items.find? fun it => getId it == i

/-- `LocalStorageService.update`: replace the first record whose id
matches (`findIndex` + assignment), `none` when the id is absent. -/
def serviceUpdate (getId : α → Nat) (merge : α → α) (i : Nat) : List α → Option (List α)
  | [] => none
  | x :: xs =>
    if getId x == i then some (merge x :: xs)
    else (serviceUpdate getId merge i xs).map (fun ys => x :: ys)

/-- `LocalStorageService.delete`: drop every record with the id; `none`
models the `false` return when nothing was removed. -/
def serviceDelete (getId : α → Nat) (items : List α) (i : Nat) : Option (List α) :=
  let newItems := items.filter fun x => !(getId x == i)
  if items.length == newItems.length then none else some newItems

/-- JS `x || d` on an optional string whose empty value is falsy. -/
def jsStrOr (x : Option String) (d : String) : String :=
  match x with
  | none => d
  | some s => if s = "" then d else s

/-- Outcomes of the inventory adjustment handler. -/
inductive AdjustError where
  | permissionDenied
  | zeroQuantity
  | itemNotFound
  | insufficientStock
deriving DecidableEq, Repr

/-- `adjustInventory` from `src/src/pages/Inventory.tsx` (lines 233-290):
permission gate on `('inventory', 'edit')`, zero-delta rejection, lookup,
non-negativity check, then the quantity update followed by one
`adjustment` transaction.  Every rejection happens before the first
write, so the input state is returned unchanged on error. -/
def adjustInventory (db : DB) (currentUser : Option User) (itemId : Nat)
    (quantity : Int) (reason : String) (notes : Option String) :
    DB × Option AdjustError :=
  if hasPermission currentUser Module.inventory Permission.edit = false then
    (db, some AdjustError.permissionDenied)
  else if quantity == 0 then
    (db, some AdjustError.zeroQuantity)
  else
    match serviceGetById (fun it => it.id) db.inventory itemId with
    | none => (db, some AdjustError.itemNotFound)
    | some inventoryItem =>
      let newQuantity := inventoryItem.quantity + quantity
      if newQuantity < 0 then
        (db, some AdjustError.insufficientStock)
      else
        let inv :=
          (serviceUpdate (fun it => it.id)
            (fun it => { it with quantity := newQuantity }) itemId db.inventory).getD
            db.inventory
        let tx : InventoryTransaction :=
          { id := db.nextId
            materialId := inventoryItem.materialId
            type := TxType.adjustment
            quantity := quantity
            referenceId := none
            notes := "调整原因: " ++ reason ++ "。备注: " ++ jsStrOr notes "无"
            createdBy := "admin" }
        ({ db with
            inventory := inv
            transactions := db.transactions ++ [tx]
            nextId := db.nextId + 1 }, none)

/-- `updateInventory` from `src/unnamed/part_005` (lines 327-356): add
the received quantity to the first inventory record of the material, or
create one with default alert threshold 10, then append one `stock_in`
transaction whose `referenceId` is `currentOrder?.id || ''` (hence
`none` when no order is being edited). -/
def updateInventory (db : DB) (currentOrder : Option Nat) (materialId : Nat)
    (quantity : Int) : DB :=
  let found := db.inventory.find? fun item => item.materialId == materialId
  let db1 : DB :=
    match found with
    | some inventoryItem =>
      { db with
          inventory :=
            (serviceUpdate (fun (it : InventoryItem) => it.id)
              (fun (it : InventoryItem) => { it with quantity := inventoryItem.quantity + quantity })
              inventoryItem.id db.inventory).getD db.inventory }
    | none =>
      { db with
          inventory := db.inventory ++
            [{ id := db.nextId, materialId := materialId, quantity := quantity,
               alertThreshold := 10 }]
          nextId := db.nextId + 1 }
  { db1 with
      transactions := db1.transactions ++
        [{ id := db1.nextId
           materialId := materialId
           type := TxType.stock_in
           quantity := quantity
           referenceId := currentOrder
           notes := "入库"
           createdBy := "admin" }]
      nextId := db1.nextId + 1 }

/-- C2: with an authorised caller, an existing item of non-negative
quantity `q` and any delta `d` with `q + d < 0`, `adjustInventory`
returns the insufficient-stock error and the whole state unchanged: the
non-negativity check precedes the first write of the operation. -/
theorem adjust_insufficient_stock_rejected (db : DB) (u : Option User) (itemId : Nat)
    (d : Int) (reason : String) (notes : Option String) (item : InventoryItem)
    (hperm : hasPermission u Module.inventory Permission.edit = true)
    (hfind : serviceGetById (fun it => it.id) db.inventory itemId = some item)
    (hq : 0 ≤ item.quantity) (hneg : item.quantity + d < 0) :
    adjustInventory db u itemId d reason notes = (db, some AdjustError.insufficientStock) := by
  have hd : (d == 0) = false := by
    simp only [beq_eq_false_iff_ne, ne_eq]
    intro h
    omega
  simp [adjustInventory, hperm, hfind, hd, hneg]

/-- Concrete store used by several witnesses: one inventory item of
quantity 5 for material 7. -/
def dbOne : DB :=
  { materials := [{ id := 7, name := "电线", unit := "卷" }]
    inventory := [{ id := 1, materialId := 7, quantity := 5, alertThreshold := 10 }]
    transactions := []
    stockInOrders := []
    stockInItems := []
    nextId := 2 }

/-- An active staff user whose `inventory` permission list holds `view`
and `edit` but not `delete`. -/
def staffEditUser : User :=
  { role := Role.staff
    isActive := true
    permissions := fun m =>
      match m with
      | Module.inventory => [Permission.view, Permission.edit]
      | _ => [] }

/-- An active staff user with only `view` on `inventory`. -/
def staffViewUser : User :=
  { role := Role.staff
    isActive := true
    permissions := fun m =>
      match m with
      | Module.inventory => [Permission.view]
      | _ => [] }

/-- An active admin with empty per-module permission lists. -/
def adminBareUser : User :=
  { role := Role.admin
    isActive := true
    permissions := fun _ => [] }

/-- Witness for C2 at a concrete input: quantity 5, delta -8. -/
theorem adjust_insufficient_stock_rejected_witness :
    hasPermission (some adminBareUser) Module.inventory Permission.edit = true ∧
    serviceGetById (fun it => it.id) dbOne.inventory 1 =
      some { id := 1, materialId := 7, quantity := 5, alertThreshold := 10 } ∧
    (0 : Int) ≤ 5 ∧ (5 : Int) + (-8) < 0 ∧
    adjustInventory dbOne (some adminBareUser) 1 (-8) "damage" none =
      (dbOne, some AdjustError.insufficientStock) :=
  ⟨by decide, by decide, by decide, by decide,
    adjust_insufficient_stock_rejected dbOne (some adminBareUser) 1 (-8) "damage" none
      { id := 1, materialId := 7, quantity := 5, alertThreshold := 10 }
      (by decide) (by decide) (by decide) (by decide)⟩

/-- C4 counterexample: an active staff user whose `inventory` permission
list does not contain `delete` is nevertheless not rejected — the gate
tests `edit`, the adjustment succeeds and writes one transaction. -/
theorem adjust_staff_without_delete_not_rejected :
    staffEditUser.role = Role.staff ∧
    Permission.delete ∉ staffEditUser.permissions Module.inventory ∧
    (adjustInventory dbOne (some staffEditUser) 1 3 "inventory_check" none).2 = none ∧
    (adjustInventory dbOne (some staffEditUser) 1 3 "inventory_check" none).1.transactions.length =
      dbOne.transactions.length + 1 := by
  refine ⟨rfl, by decide, ?_, ?_⟩ <;> rfl

/-- C4 amended: the permission gate of `adjustInventory` tests the
`edit` permission on module `inventory`.  An active staff user without
`edit` there is rejected with the permission error and zero writes; an
active admin is never rejected by the gate whatever the configured
per-module lists. -/
theorem adjust_permission_gate (db : DB) (u : User) (itemId : Nat) (d : Int)
    (reason : String) (notes : Option String) :
    (u.isActive = true → u.role = Role.staff →
      Permission.edit ∉ u.permissions Module.inventory →
      adjustInventory db (some u) itemId d reason notes =
        (db, some AdjustError.permissionDenied)) ∧
    (u.isActive = true → u.role = Role.admin →
      (adjustInventory db (some u) itemId d reason notes).2 ≠
        some AdjustError.permissionDenied) := by
  constructor
  · intro hact hrole hnoedit
    have hgate : hasPermission (some u) Module.inventory Permission.edit = false := by
      simp only [hasPermission, hact, hrole]
      simp [List.contains, List.elem_eq_mem, hnoedit]
    simp [adjustInventory, hgate]
  · intro hact hrole
    have hgate : hasPermission (some u) Module.inventory Permission.edit = true := by
      simp [hasPermission, hact, hrole]
    unfold adjustInventory
    rw [hgate]
    simp only [Bool.true_eq_false, if_false]
    by_cases hz : (d == 0) = true
    · simp [hz]
    · simp only [Bool.not_eq_true] at hz
      simp only [hz, if_false]
      cases hfind : serviceGetById (fun it => it.id) db.inventory itemId with
      | none => simp
      | some item =>
        by_cases hneg : item.quantity + d < 0
        · simp [hneg]
        · simp [hneg]

/-- Witness for C4 amended: staff with only `view` is rejected; the bare
admin passes the gate. -/
theorem adjust_permission_gate_witness :
    staffViewUser.isActive = true ∧ staffViewUser.role = Role.staff ∧
    Permission.edit ∉ staffViewUser.permissions Module.inventory ∧
    adjustInventory dbOne (some staffViewUser) 1 3 "other" none =
      (dbOne, some AdjustError.permissionDenied) ∧
    adminBareUser.isActive = true ∧ adminBareUser.role = Role.admin ∧
    (adjustInventory dbOne (some adminBareUser) 1 3 "other" none).2 ≠
      some AdjustError.permissionDenied :=
  ⟨by decide, by decide, by decide,
    (adjust_permission_gate dbOne staffViewUser 1 3 "other" none).1 (by decide) (by decide)
      (by decide),
    by decide, by decide,
    (adjust_permission_gate dbOne adminBareUser 1 3 "other" none).2 (by decide) (by decide)⟩

/-- View-sync state of `InventoryProvider`: the `lastUpdateTimestamp`
watermark ref, a counter of the refreshes actually launched, and the
`syncStatus === 'syncing'` busy flag read by `forceRefresh`. -/
structure SyncState where
  watermark : Int
  refreshes : Nat
  syncing : Bool
deriving DecidableEq, Repr

/-- `forceRefresh` from `src/src/pages/Inventory.tsx` (lines 107-127):
a no-op while a sync is in flight, otherwise it launches one reload
(counted here; the reload itself just re-reads the store). -/
def forceRefresh (s : SyncState) : SyncState :=
  if s.syncing then s else { s with refreshes := s.refreshes + 1 }

/-- `handleInventoryUpdate` from `src/src/pages/Inventory.tsx` (lines
147-156).  The JS guard is `event.detail?.timestamp &&
event.detail.timestamp <= lastUpdateTimestamp.current`: a number is
truthy iff nonzero, so a timestamp of `0` skips both the guard and the
watermark assignment and falls through to `forceRefresh`. -/
def handleInventoryUpdate (s : SyncState) (detailTimestamp : Option Int) : SyncState :=
  match detailTimestamp with
  | some ts =>
    if ts ≠ 0 ∧ ts ≤ s.watermark then s
    else forceRefresh { s with watermark := if ts ≠ 0 then ts else s.watermark }
  | none => forceRefresh s

/-- C5 counterexample: after a first signal with timestamp 5 is applied
(watermark 5), a second signal carrying timestamp 0 ≤ 5 is NOT ignored:
it launches another refresh, because `0` is falsy in the guard. -/
theorem sync_zero_timestamp_not_suppressed :
    (handleInventoryUpdate ⟨0, 0, false⟩ (some 5)).watermark = 5 ∧
    (0 : Int) ≤ 5 ∧
    (handleInventoryUpdate (handleInventoryUpdate ⟨0, 0, false⟩ (some 5)) (some 0)).refreshes =
      (handleInventoryUpdate ⟨0, 0, false⟩ (some 5)).refreshes + 1 := by
  refine ⟨by decide, by decide, by decide⟩

/-- `forceRefresh` never moves the watermark. -/
theorem forceRefresh_watermark (s : SyncState) : (forceRefresh s).watermark = s.watermark := by
  unfold forceRefresh
  split <;> rfl

/-- `forceRefresh` launches at most one refresh. -/
theorem forceRefresh_refreshes_le (s : SyncState) :
    (forceRefresh s).refreshes ≤ s.refreshes + 1 := by
  unfold forceRefresh
  split <;> simp

/-- A stale signal with a nonzero timestamp is dropped before any state
change. -/
theorem handle_stale_nonzero (s : SyncState) (ts : Int) (h0 : ts ≠ 0)
    (hle : ts ≤ s.watermark) : handleInventoryUpdate s (some ts) = s := by
  simp [handleInventoryUpdate, h0, hle]

/-- C5 amended: once the watermark holds `t`, every signal carrying a
NONZERO timestamp `t' ≤ t` is ignored with no refresh; consequently two
signals with nonzero, equal or decreasing timestamps launch at most one
refresh.  (A signal carrying timestamp exactly 0 bypasses the guard.) -/
theorem sync_watermark_suppression :
    (∀ (s : SyncState) (ts : Int), ts ≠ 0 → ts ≤ s.watermark →
      handleInventoryUpdate s (some ts) = s) ∧
    (∀ (s : SyncState) (t1 t2 : Int), t1 ≠ 0 → t2 ≠ 0 → t2 ≤ t1 →
      (handleInventoryUpdate (handleInventoryUpdate s (some t1)) (some t2)).refreshes ≤
        s.refreshes + 1) := by
  refine ⟨handle_stale_nonzero, ?_⟩
  intro s t1 t2 h1 h2 hle
  by_cases hw : t1 ≤ s.watermark
  · rw [handle_stale_nonzero s t1 h1 hw, handle_stale_nonzero s t2 h2 (le_trans hle hw)]
    omega
  · have e1 : handleInventoryUpdate s (some t1) = forceRefresh { s with watermark := t1 } := by
      simp [handleInventoryUpdate, hw, h1]
    rw [e1, handle_stale_nonzero _ t2 h2 (by rw [forceRefresh_watermark]; exact hle)]
    exact forceRefresh_refreshes_le _

/-- Witness for C5 amended at watermark 5, timestamps 3 and then 2. -/
theorem sync_watermark_suppression_witness :
    (3 : Int) ≠ 0 ∧ (3 : Int) ≤ 5 ∧
    handleInventoryUpdate ⟨5, 0, false⟩ (some 3) = ⟨5, 0, false⟩ ∧
    (handleInventoryUpdate (handleInventoryUpdate ⟨5, 0, false⟩ (some 3)) (some 2)).refreshes ≤
      0 + 1 :=
  ⟨by decide, by decide,
    sync_watermark_suppression.1 ⟨5, 0, false⟩ 3 (by decide) (by decide),
    sync_watermark_suppression.2 ⟨5, 0, false⟩ 3 2 (by decide) (by decide) (by decide)⟩

/-- `Category` (`src/src/models/Inventory.ts` Category part); `parentId`
is optional and the empty string is falsy, modelled as `Option Nat`. -/
structure Category where
  id : Nat
  name : String
  parentId : Option Nat
deriving DecidableEq, Repr

/-- The `map[id]` lookup of `buildCategoryTree`: the map is filled by a
forEach in list order, so a duplicated id is overwritten by the later
record — the lookup returns the last record carrying the id. -/
def categoryNode (categories : List Category) (i : Nat) : Option Category :=
  categories.reverse.find? fun c => c.id == i

/-- The `roots` array produced by `buildCategoryTree`
(`src/src/models/Inventory.ts` lines 73-101): a node is pushed as a root
iff its `parentId` is falsy or does not resolve in the map built from
the input; otherwise it is appended to the resolved parent's `children`
and never reaches `roots`.  The claims below concern only which
categories end up in `roots`, so the `children` mutation (which cannot
move a node into or out of `roots`) is not tracked. -/
def buildCategoryTreeRoots (categories : List Category) : List Category :=
  categories.foldl
    (fun roots category =>
      let node := (categoryNode categories category.id).getD category
      match category.parentId with
      | some p =>
        if (categoryNode categories p).isSome then roots
        else roots ++ [node]
      | none => roots ++ [node])
    []

/-- C8 counterexample: a two-element parent cycle.  Both members resolve
their parents in the map, so neither is pushed to `roots`: the returned
forest is empty, and cycle members are NOT treated as roots. -/
theorem category_cycle_members_not_roots :
    buildCategoryTreeRoots [⟨1, "A", some 2⟩, ⟨2, "B", some 1⟩] = [] ∧
    (⟨1, "A", some 2⟩ : Category).parentId = some 2 ∧
    (⟨2, "B", some 1⟩ : Category).parentId = some 1 := by
  refine ⟨by decide, rfl, rfl⟩

/-- With distinct ids, the map lookup of a member returns that member. -/
theorem categoryNode_self (categories : List Category)
    (hnodup : (categories.map fun c => c.id).Nodup) (c : Category)
    (hc : c ∈ categories) : categoryNode categories c.id = some c := by
  unfold categoryNode
  have hmemr : c ∈ categories.reverse := List.mem_reverse.mpr hc
  cases hfind : categories.reverse.find? fun d => d.id == c.id with
  | none =>
    exfalso
    have := List.find?_eq_none.mp hfind c hmemr
    simp at this
  | some d =>
    have hdmem : d ∈ categories.reverse := List.mem_of_find?_eq_some hfind
    have hdid := List.find?_some hfind
    have : d = c := by
      refine List.inj_on_of_nodup_map hnodup (List.mem_reverse.mp hdmem) hc ?_
      simpa using hdid
    rw [this]

/-- Whether a category read from the input resolves no parent in it. -/
def isUnresolvedParent (categories : List Category) (c : Category) : Bool :=
  match c.parentId with
  | some p => !(categoryNode categories p).isSome
  | none => true

/-- Folding a conditional append from the left produces the filter. -/
theorem foldl_if_append_eq_filter {α : Type} {p : α → Bool} (l : List α) :
    ∀ acc : List α,
      l.foldl (fun acc b => if p b then acc ++ [b] else acc) acc = acc ++ l.filter p := by
  induction l with
  | nil => intro acc; simp
  | cons x xs ih =>
    intro acc
    cases hx : p x with
    | true => simp [List.foldl, hx, ih, List.filter_cons]
    | false => simp [List.foldl, hx, ih, List.filter_cons]

/-- C8 amended: a category appears among the returned roots iff it is in
the input and its `parentId` is absent or fails to resolve to any input
category; members of a parent cycle whose references resolve inside the
input are attached as children instead and do not appear as roots. -/
theorem category_roots_iff (categories : List Category)
    (hnodup : (categories.map fun c => c.id).Nodup) (c : Category) :
    c ∈ buildCategoryTreeRoots categories ↔
      c ∈ categories ∧ isUnresolvedParent categories c = true := by
  have hstep :
      buildCategoryTreeRoots categories =
        categories.foldl
          (fun roots category =>
            if isUnresolvedParent categories category then roots ++ [category] else roots)
          [] := by
    unfold buildCategoryTreeRoots
    refine List.foldl_ext _ _ [] ?_
    intro acc b hb
    have hnode : (categoryNode categories b.id).getD b = b := by
      rw [categoryNode_self categories hnodup b hb]
      rfl
    obtain ⟨bid, bname, bparent⟩ := b
    simp only [isUnresolvedParent]
    cases bparent with
    | none => simp [hnode]
    | some p =>
      cases hres : (categoryNode categories p).isSome with
      | true => simp [hres, hnode]
      | false => simp [hres, hnode]
  rw [hstep, foldl_if_append_eq_filter categories []]
  simp [List.mem_filter]

/-- Witness for C8 amended: an orphan child (parent id 9 absent from the
input) is a root; a well-formed child of an existing parent is not. -/
theorem category_roots_iff_witness :
    (([⟨1, "root", none⟩, ⟨2, "child", some 1⟩, ⟨3, "orphan", some 9⟩] :
        List Category).map fun c => c.id).Nodup ∧
    (⟨3, "orphan", some 9⟩ : Category) ∈
      buildCategoryTreeRoots [⟨1, "root", none⟩, ⟨2, "child", some 1⟩, ⟨3, "orphan", some 9⟩] ∧
    (⟨2, "child", some 1⟩ : Category) ∉
      buildCategoryTreeRoots [⟨1, "root", none⟩, ⟨2, "child", some 1⟩, ⟨3, "orphan", some 9⟩] :=
  ⟨by decide,
    (category_roots_iff _ (by decide) _).mpr (by refine ⟨by decide, by decide⟩),
    fun h => by
      have := (category_roots_iff _ (by decide) _).mp h
      exact absurd this.2 (by decide)⟩

/-- Row shape built by `LowStockAlerts.getLowStockAlerts`. -/
structure AlertEntry where
  name : String
  current : Int
  threshold : Int
  unit : String
  id : Nat
deriving DecidableEq, Repr

/-- The per-item mapping step of `getLowStockAlerts`: material lookup
with the JS `||` fallbacks for name and unit. -/
def alertOf (materials : List Material) (item : InventoryItem) : AlertEntry :=
  let material := materials.find? fun m => m.id == item.materialId
  { name := jsStrOr (material.map fun m => m.name) "未知材料"
    current := item.quantity
    threshold := item.alertThreshold
    unit := jsStrOr (material.map fun m => m.unit) "个"
    id := item.id }

/-- `LowStockAlerts.getLowStockAlerts` from `src/src/pages/Inventory.tsx`
(lines 848-862): filter `quantity <= alertThreshold`, map to display
rows, then the stable comparator sort `(a, b) => a.current - b.current`
(ascending by current quantity). -/
def getLowStockAlerts (inventories : List InventoryItem) (materials : List Material) :
    List AlertEntry :=
  ((inventories.filter fun item => decide (item.quantity ≤ item.alertThreshold)).map
    (alertOf materials)).mergeSort fun a b => decide (a.current ≤ b.current)

/-- C7: an inventory item contributes a row to the low-stock alert list
iff its quantity is at or below its alert threshold, and the produced
list is ordered ascending by current quantity (most critical first). -/
theorem low_stock_alerts_correct (inventories : List InventoryItem)
    (materials : List Material)
    (hnodup : (inventories.map fun it => it.id).Nodup) :
    (∀ item ∈ inventories,
      ((∃ e ∈ getLowStockAlerts inventories materials, e.id = item.id) ↔
        item.quantity ≤ item.alertThreshold)) ∧
    List.Sorted (fun a b => a.current ≤ b.current) (getLowStockAlerts inventories materials) := by
  constructor
  · intro item hmem
    constructor
    · rintro ⟨e, he, hid⟩
      have he' : e ∈ (inventories.filter fun it =>
          decide (it.quantity ≤ it.alertThreshold)).map (alertOf materials) :=
        (List.mergeSort_perm _ _).mem_iff.mp he
      obtain ⟨item2, h2, he2⟩ := List.mem_map.mp he'
      obtain ⟨h2mem, h2low⟩ := List.mem_filter.mp h2
      have hids : item2.id = item.id := by
        rw [← hid, ← he2]
        rfl
      have : item2 = item := List.inj_on_of_nodup_map hnodup h2mem hmem hids
      rw [← this]
      exact of_decide_eq_true h2low
    · intro hlow
      refine ⟨alertOf materials item, ?_, rfl⟩
      refine (List.mergeSort_perm _ _).mem_iff.mpr ?_
      exact List.mem_map_of_mem _ (List.mem_filter.mpr ⟨hmem, by simpa using hlow⟩)
  · have hp := @List.sorted_mergeSort AlertEntry
      (fun a b => decide (a.current ≤ b.current))
      (by
        intro a b c h1 h2
        simp only [decide_eq_true_eq] at *
        omega)
      (by
        intro a b
        simp only [Bool.or_eq_true, decide_eq_true_eq]
        omega)
      ((inventories.filter fun item =>
        decide (item.quantity ≤ item.alertThreshold)).map (alertOf materials))
    exact hp.imp fun h => by simpa using h

/-- Witness data for C7: one low item, one well-stocked item. -/
def invLowW : List InventoryItem :=
  [{ id := 1, materialId := 7, quantity := 5, alertThreshold := 10 },
   { id := 2, materialId := 8, quantity := 99, alertThreshold := 10 }]

/-- Witness for C7: the low item appears in the alert list, and the list
is sorted ascending by current quantity. -/
theorem low_stock_alerts_correct_witness :
    ((invLowW.map fun it => it.id).Nodup) ∧
    (∃ e ∈ getLowStockAlerts invLowW dbOne.materials, e.id = 1) ∧
    List.Sorted (fun a b => a.current ≤ b.current)
      (getLowStockAlerts invLowW dbOne.materials) :=
  ⟨by decide,
    ((low_stock_alerts_correct invLowW dbOne.materials (by decide)).1
      { id := 1, materialId := 7, quantity := 5, alertThreshold := 10 }
      (by decide)).mpr (by decide),
    (low_stock_alerts_correct invLowW dbOne.materials (by decide)).2⟩

/-- One pass of the new-material loop inside `loadAllData`
(`src/src/pages/Inventory.tsx` lines 66-77): the existence test runs
against the snapshot `inventoryItems` read before the loop, and a
missing material gets an initial record with quantity 0 and alert
threshold 10. -/
def provisionStep (inventoryItems : List InventoryItem) (acc : DB) (material : Material) : DB :=
  if inventoryItems.any fun item => item.materialId == material.id then acc
  else
    { acc with
        inventory := acc.inventory ++
          [{ id := acc.nextId, materialId := material.id, quantity := 0,
             alertThreshold := 10 }]
        nextId := acc.nextId + 1 }

/-- The store mutation performed by `loadAllData`: provision an
inventory record for every material missing one.  (The remainder of
`loadAllData` only copies collections into component state.) -/
def loadAllDataProvision (db : DB) : DB :=
  db.materials.foldl (provisionStep db.inventory) db

/-- Quantity/threshold projection, insensitive to generated ids. -/
def invProj (it : InventoryItem) : Int × Int :=
  (it.quantity, it.alertThreshold)

/-- The provisioning loop leaves the material list untouched. -/
theorem provision_materials (snapshot : List InventoryItem) (mats : List Material) :
    ∀ acc : DB, (mats.foldl (provisionStep snapshot) acc).materials = acc.materials := by
  induction mats with
  | nil => intro acc; rfl
  | cons mat mats ih =>
    intro acc
    rw [List.foldl_cons, ih]
    unfold provisionStep
    split <;> rfl

/-- Projection of the per-material inventory records after the loop:
the records already present, followed by one `(0, 10)` record for each
processed material that was absent from the snapshot. -/
theorem provision_filter_map (snapshot : List InventoryItem) (mats : List Material) :
    ∀ (acc : DB) (k : Nat),
      (((mats.foldl (provisionStep snapshot) acc).inventory.filter
          fun it => it.materialId == k).map invProj) =
        ((acc.inventory.filter fun it => it.materialId == k).map invProj) ++
        ((mats.filter fun mat => mat.id == k &&
            !(snapshot.any fun item => item.materialId == mat.id)).map
          fun _ => ((0 : Int), (10 : Int))) := by
  induction mats with
  | nil => intro acc k; simp
  | cons mat mats ih =>
    intro acc k
    rw [List.foldl_cons, ih]
    by_cases hany : (snapshot.any fun item => item.materialId == mat.id) = true
    · have hstep : provisionStep snapshot acc mat = acc := by
        simp [provisionStep, hany]
      rw [hstep, List.filter_cons]
      simp [hany]
    · have hany' : (snapshot.any fun item => item.materialId == mat.id) = false := by
        simpa using hany
      have hstep : provisionStep snapshot acc mat =
          { acc with
              inventory := acc.inventory ++
                [{ id := acc.nextId, materialId := mat.id, quantity := 0,
                   alertThreshold := 10 }]
              nextId := acc.nextId + 1 } := by
        simp [provisionStep, hany']
      rw [hstep, List.filter_cons]
      by_cases hk : (mat.id == k) = true
      · simp [List.filter_append, List.filter_cons, hany', hk, invProj]
      · have hk' : (mat.id == k) = false := by simpa using hk
        simp [List.filter_append, List.filter_cons, hany', hk', invProj]

/-- A membership in the projected filter yields the `any` test. -/
theorem any_of_filter_map_mem {l : List InventoryItem} {p : InventoryItem → Bool}
    {z : Int × Int} (h : z ∈ (l.filter p).map invProj) : l.any p = true := by
  obtain ⟨y, hy, _⟩ := List.mem_map.mp h
  obtain ⟨hy1, hy2⟩ := List.mem_filter.mp hy
  exact List.any_eq_true.mpr ⟨y, hy1, hy2⟩

/-- After one provisioning run, every listed material has an inventory
record. -/
theorem provision_covers (db : DB) (mat : Material) (hm : mat ∈ db.materials) :
    ((loadAllDataProvision db).inventory.any fun it => it.materialId == mat.id) = true := by
  have hfm := provision_filter_map db.inventory db.materials db mat.id
  by_cases hany : (db.inventory.any fun it => it.materialId == mat.id) = true
  · obtain ⟨x, hx, hpx⟩ := List.any_eq_true.mp hany
    have hmem : invProj x ∈
        (((db.materials.foldl (provisionStep db.inventory) db).inventory.filter
          fun it => it.materialId == mat.id).map invProj) := by
      rw [hfm]
      exact List.mem_append_left _
        (List.mem_map_of_mem _ (List.mem_filter.mpr ⟨hx, hpx⟩))
    exact any_of_filter_map_mem hmem
  · have hany' : (db.inventory.any fun it => it.materialId == mat.id) = false := by
      simpa using hany
    have hcond : (mat.id == mat.id &&
        !(db.inventory.any fun item => item.materialId == mat.id)) = true := by
      simp [hany']
    have hmem : ((0 : Int), (10 : Int)) ∈
        (((db.materials.foldl (provisionStep db.inventory) db).inventory.filter
          fun it => it.materialId == mat.id).map invProj) := by
      rw [hfm]
      refine List.mem_append_right _ ?_
      exact List.mem_map_of_mem _ (List.mem_filter.mpr ⟨hm, hcond⟩)
    exact any_of_filter_map_mem hmem

/-- When all processed materials are already covered by the snapshot,
the loop is a no-op. -/
theorem provision_noop (snapshot : List InventoryItem) (mats : List Material)
    (h : ∀ mat ∈ mats, (snapshot.any fun it => it.materialId == mat.id) = true) :
    ∀ acc : DB, mats.foldl (provisionStep snapshot) acc = acc := by
  induction mats with
  | nil => intro acc; rfl
  | cons mat mats ih =>
    intro acc
    rw [List.foldl_cons]
    have hstep : provisionStep snapshot acc mat = acc := by
      simp [provisionStep, h mat (List.mem_cons_self mat mats)]
    rw [hstep]
    exact ih (fun x hx => h x (List.mem_cons_of_mem mat hx)) acc

/-- For materials already covered by the snapshot, the loop adds no
record of that material. -/
theorem provision_filter_stable (snapshot : List InventoryItem) (mats : List Material)
    (k : Nat) (hk : (snapshot.any fun it => it.materialId == k) = true) :
    ∀ acc : DB,
      ((mats.foldl (provisionStep snapshot) acc).inventory.filter
        fun it => it.materialId == k) =
        acc.inventory.filter fun it => it.materialId == k := by
  induction mats with
  | nil => intro acc; rfl
  | cons mat mats ih =>
    intro acc
    rw [List.foldl_cons, ih]
    by_cases hany : (snapshot.any fun item => item.materialId == mat.id) = true
    · simp [provisionStep, hany]
    · have hany' : (snapshot.any fun item => item.materialId == mat.id) = false := by
        simpa using hany
      have hne : (mat.id == k) = false := by
        by_contra hcon
        have : (mat.id == k) = true := by
          cases hcase : (mat.id == k) with
          | true => rfl
          | false => exact absurd hcase hcon
        have : mat.id = k := by simpa using this
        rw [this] at hany'
        rw [hany'] at hk
        cases hk
      simp [provisionStep, hany', List.filter_append, List.filter_cons, hne]

/-- With distinct ids, filtering the materials by one member's id keeps
exactly that member. -/
theorem filter_id_eq_single (mats : List Material) (m : Material)
    (hnodup : (mats.map fun x => x.id).Nodup) (hm : m ∈ mats) :
    (mats.filter fun x => x.id == m.id) = [m] := by
  induction mats with
  | nil => cases hm
  | cons x xs ih =>
    rw [List.map_cons, List.nodup_cons] at hnodup
    cases List.mem_cons.mp hm with
    | inl hxm =>
      rw [← hxm] at hnodup ⊢
      rw [List.filter_cons]
      have hnil : (xs.filter fun y => y.id == m.id) = [] := by
        refine List.filter_eq_nil_iff.mpr ?_
        intro a ha hcon
        have : a.id = m.id := by simpa using hcon
        exact hnodup.1 (this ▸ List.mem_map_of_mem (fun y => y.id) ha)
      simp [hnil]
    | inr hxm =>
      have hne : (x.id == m.id) = false := by
        by_contra hcon
        have hx : x.id = m.id := by
          cases hcase : (x.id == m.id) with
          | true => simpa using hcase
          | false => exact absurd hcase hcon
        exact hnodup.1 (hx ▸ List.mem_map_of_mem (fun y => y.id) hxm)
      rw [List.filter_cons]
      simp only [hne, if_false]
      exact ih hnodup.2 hxm

/-- C6: the provisioning pass is idempotent — a second run in a row
changes nothing; a material with no inventory record receives exactly
one, created with quantity 0 and alert threshold 10; a material that
already has records keeps exactly the ones it had. -/
theorem inventory_lazy_provisioning (db : DB) (m : Material) (hm : m ∈ db.materials)
    (hnodup : (db.materials.map fun x => x.id).Nodup) :
    loadAllDataProvision (loadAllDataProvision db) = loadAllDataProvision db ∧
    ((db.inventory.any fun it => it.materialId == m.id) = false →
      (((loadAllDataProvision db).inventory.filter fun it => it.materialId == m.id).map
        invProj) = [((0 : Int), (10 : Int))]) ∧
    ((db.inventory.any fun it => it.materialId == m.id) = true →
      ((loadAllDataProvision db).inventory.filter fun it => it.materialId == m.id) =
        db.inventory.filter fun it => it.materialId == m.id) := by
  refine ⟨?_, ?_, ?_⟩
  · show (loadAllDataProvision db).materials.foldl
      (provisionStep (loadAllDataProvision db).inventory) (loadAllDataProvision db) =
      loadAllDataProvision db
    rw [show (loadAllDataProvision db).materials = db.materials from
      provision_materials db.inventory db.materials db]
    exact provision_noop (loadAllDataProvision db).inventory db.materials
      (fun mat hmat => provision_covers db mat hmat) (loadAllDataProvision db)
  · intro hany
    have hfm := provision_filter_map db.inventory db.materials db m.id
    have hdbnil : (db.inventory.filter fun it => it.materialId == m.id) = [] := by
      refine List.filter_eq_nil_iff.mpr ?_
      intro a ha hcon
      have : (db.inventory.any fun it => it.materialId == m.id) = true :=
        List.any_eq_true.mpr ⟨a, ha, hcon⟩
      rw [this] at hany
      cases hany
    have hcongr : (db.materials.filter fun mat => mat.id == m.id &&
        !(db.inventory.any fun item => item.materialId == mat.id)) =
        db.materials.filter fun mat => mat.id == m.id := by
      refine List.filter_congr ?_
      intro x hx
      cases hcase : (x.id == m.id) with
      | true =>
        have hxid : x.id = m.id := by simpa using hcase
        rw [hxid, hany]
        rfl
      | false => rfl
    show (((db.materials.foldl (provisionStep db.inventory) db).inventory.filter
        fun it => it.materialId == m.id).map invProj) = [((0 : Int), (10 : Int))]
    rw [hfm, hdbnil, hcongr, filter_id_eq_single db.materials m hnodup hm]
    rfl
  · intro hany
    exact provision_filter_stable db.inventory db.materials m.id hany db

/-- Concrete store for the C6 witness: one material, empty inventory. -/
def dbProv : DB :=
  { materials := [{ id := 7, name := "电线", unit := "卷" }]
    inventory := []
    transactions := []
    stockInOrders := []
    stockInItems := []
    nextId := 1 }

/-- Witness for C6 at a one-material store with no inventory yet. -/
theorem inventory_lazy_provisioning_witness :
    ({ id := 7, name := "电线", unit := "卷" } : Material) ∈ dbProv.materials ∧
    (dbProv.materials.map fun x => x.id).Nodup ∧
    loadAllDataProvision (loadAllDataProvision dbProv) = loadAllDataProvision dbProv ∧
    (((loadAllDataProvision dbProv).inventory.filter fun it => it.materialId == 7).map
      invProj) = [((0 : Int), (10 : Int))] :=
  ⟨by decide, by decide,
    (inventory_lazy_provisioning dbProv { id := 7, name := "电线", unit := "卷" }
      (by decide) (by decide)).1,
    (inventory_lazy_provisioning dbProv { id := 7, name := "电线", unit := "卷" }
      (by decide) (by decide)).2.1 (by decide)⟩

/-- Sum of the quantities held for a material across a record list
(absent records contribute 0, duplicates add up). -/
def itemSumFor (m : Nat) (items : List InventoryItem) : Int :=
  (items.map fun it => if it.materialId = m then it.quantity else 0).sum

/-- Sum of the signed deltas logged for a material. -/
def txSumFor (m : Nat) (txs : List InventoryTransaction) : Int :=
  (txs.map fun t => if t.materialId = m then t.quantity else 0).sum

/-- The on-hand quantity the store carries for a material. -/
def itemSum (m : Nat) (db : DB) : Int :=
  itemSumFor m db.inventory

/-- The ledger total logged for a material. -/
def txSum (m : Nat) (db : DB) : Int :=
  txSumFor m db.transactions

/-- Store well-formedness maintained by `generateId`: inventory ids are
distinct and below the id counter. -/
def WF (db : DB) : Prop :=
  ((db.inventory.map fun it => it.id).Nodup) ∧ ∀ it ∈ db.inventory, it.id < db.nextId

/-- `serviceUpdate` under distinct ids replaces exactly the targeted
record, splitting the list around it. -/
theorem serviceUpdate_decomp {α : Type} (getId : α → Nat) (merge : α → α)
    (items : List α) (hnodup : (items.map getId).Nodup) (found : α)
    (hfound : found ∈ items) :
    ∃ pre post, items = pre ++ found :: post ∧
      serviceUpdate getId merge (getId found) items = some (pre ++ merge found :: post) := by
  induction items with
  | nil => cases hfound
  | cons x xs ih =>
    rw [List.map_cons, List.nodup_cons] at hnodup
    by_cases hx : getId x = getId found
    · have hxf : x = found := by
        cases List.mem_cons.mp hfound with
        | inl h => exact h.symm
        | inr h => exact absurd (hx ▸ List.mem_map_of_mem getId h) hnodup.1
      refine ⟨[], xs, by simp [hxf], ?_⟩
      simp [serviceUpdate, hx, hxf]
    · have hfx : found ∈ xs := by
        cases List.mem_cons.mp hfound with
        | inl h => exact absurd (by rw [h]) hx
        | inr h => exact h
      obtain ⟨pre, post, hdecomp, hupd⟩ := ih hnodup.2 hfx
      refine ⟨x :: pre, post, by rw [hdecomp]; rfl, ?_⟩
      have hne : (getId x == getId found) = false := by simpa using hx
      simp [serviceUpdate, hne, hupd]

/-- Appending one transaction adds its delta to the per-material total. -/
theorem txSumFor_append_single (m : Nat) (txs : List InventoryTransaction)
    (t : InventoryTransaction) :
    txSumFor m (txs ++ [t]) = txSumFor m txs + (if t.materialId = m then t.quantity else 0) := by
  simp [txSumFor]

/-- `updateInventory` when the material already has a record. -/
theorem updateInventory_found (db : DB) (ref : Option Nat) (m0 : Nat) (q : Int)
    (it : InventoryItem)
    (hfind : db.inventory.find? (fun item => item.materialId == m0) = some it) :
    updateInventory db ref m0 q =
      { db with
          inventory := (serviceUpdate (fun x : InventoryItem => x.id)
            (fun x => { x with quantity := it.quantity + q }) it.id db.inventory).getD
            db.inventory
          transactions := db.transactions ++
            [{ id := db.nextId, materialId := m0, type := TxType.stock_in, quantity := q,
               referenceId := ref, notes := "入库", createdBy := "admin" }]
          nextId := db.nextId + 1 } := by
  simp only [updateInventory, hfind]

/-- `updateInventory` when the material has no record yet: a fresh one
is created with the received quantity and threshold 10. -/
theorem updateInventory_missing (db : DB) (ref : Option Nat) (m0 : Nat) (q : Int)
    (hfind : db.inventory.find? (fun item => item.materialId == m0) = none) :
    updateInventory db ref m0 q =
      { db with
          inventory := db.inventory ++
            [{ id := db.nextId, materialId := m0, quantity := q, alertThreshold := 10 }]
          transactions := db.transactions ++
            [{ id := db.nextId + 1, materialId := m0, type := TxType.stock_in, quantity := q,
               referenceId := ref, notes := "入库", createdBy := "admin" }]
          nextId := db.nextId + 2 } := by
  simp only [updateInventory, hfind]

/-- Effect of one stock-in application: well-formedness is preserved,
the per-material quantity moves by the received amount for that material
only, and exactly one matching `stock_in` transaction is appended. -/
theorem updateInventory_step (db : DB) (ref : Option Nat) (m0 : Nat) (q : Int)
    (hwf : WF db) :
    WF (updateInventory db ref m0 q) ∧
    (∀ m, itemSum m (updateInventory db ref m0 q) =
      itemSum m db + (if m0 = m then q else 0)) ∧
    (∃ t, (updateInventory db ref m0 q).transactions = db.transactions ++ [t] ∧
      t.materialId = m0 ∧ t.quantity = q ∧ t.type = TxType.stock_in) := by
  cases hfind : db.inventory.find? (fun item => item.materialId == m0) with
  | some it =>
    have hmem : it ∈ db.inventory := List.mem_of_find?_eq_some hfind
    have hmat : it.materialId = m0 := by
      have := List.find?_some hfind
      simpa using this
    obtain ⟨pre, post, hdecomp, hupd⟩ :=
      serviceUpdate_decomp (fun x : InventoryItem => x.id)
        (fun x => { x with quantity := it.quantity + q }) db.inventory hwf.1 it hmem
    rw [updateInventory_found db ref m0 q it hfind, hupd]
    refine ⟨⟨?_, ?_⟩, ?_, ?_⟩
    · have hids : ((pre ++ { it with quantity := it.quantity + q } :: post).map
          fun x : InventoryItem => x.id) =
          ((pre ++ it :: post).map fun x : InventoryItem => x.id) := by
        simp
      rw [Option.getD_some]
      rw [hids, ← hdecomp]
      exact hwf.1
    · intro x hx
      rw [Option.getD_some] at hx
      have hx' : x.id < db.nextId := by
        rcases List.mem_append.mp hx with h | h
        · exact hwf.2 x (hdecomp ▸ List.mem_append_left _ h)
        · rcases List.mem_cons.mp h with h | h
          · rw [h]
            exact hwf.2 it hmem
          · exact hwf.2 x (hdecomp ▸ List.mem_append_right _ (List.mem_cons_of_mem _ h))
      show x.id < db.nextId + 1
      omega
    · intro m
      rw [Option.getD_some]
      simp only [itemSum, itemSumFor, hdecomp]
      simp only [List.map_append, List.map_cons, List.sum_append, List.sum_cons]
      by_cases hm : m0 = m
      · rw [← hm, hmat]
        simp
        omega
      · have : it.materialId = m ↔ False := by
          constructor
          · intro h
            exact hm (hmat ▸ h)
          · intro h
            cases h
        simp only [this, if_false, if_neg (fun h => hm h)]
        omega
    · exact ⟨_, rfl, rfl, rfl, rfl⟩
  | none =>
    rw [updateInventory_missing db ref m0 q hfind]
    refine ⟨⟨?_, ?_⟩, ?_, ?_⟩
    · simp only [List.map_append, List.map_cons, List.map_nil]
      rw [List.nodup_append]
      refine ⟨hwf.1, List.nodup_singleton _, ?_⟩
      intro a ha hb
      obtain ⟨x, hx, hxa⟩ := List.mem_map.mp ha
      have hxa2 : x.id = a := by simpa using hxa
      have hbb : a = db.nextId := by simpa using hb
      have := hwf.2 x hx
      omega
    · intro x hx
      show x.id < db.nextId + 2
      rcases List.mem_append.mp hx with h | h
      · have := hwf.2 x h
        omega
      · have hxeq : x = ⟨db.nextId, m0, q, 10⟩ := by simpa using h
        rw [hxeq]
        show db.nextId < db.nextId + 2
        omega
    · intro m
      simp only [itemSum, itemSumFor, List.map_append, List.map_cons, List.map_nil,
        List.sum_append, List.sum_cons, List.sum_nil]
      by_cases hm : m0 = m
      · simp [hm]
      · simp [hm]
    · exact ⟨_, rfl, rfl, rfl, rfl⟩

/-- Effect of one manual adjustment: either it was rejected before any
write and the store is unchanged, or well-formedness is preserved, the
adjusted material's quantity moves by the delta, and exactly one
matching `adjustment` transaction is appended. -/
theorem adjustInventory_step (db : DB) (u : Option User) (i : Nat) (q : Int)
    (r : String) (n : Option String) (hwf : WF db) :
    (adjustInventory db u i q r n).1 = db ∨
    (WF (adjustInventory db u i q r n).1 ∧
      ∃ mid, (∀ m, itemSum m (adjustInventory db u i q r n).1 =
          itemSum m db + (if mid = m then q else 0)) ∧
        ∃ t, (adjustInventory db u i q r n).1.transactions = db.transactions ++ [t] ∧
          t.materialId = mid ∧ t.quantity = q ∧ t.type = TxType.adjustment) := by
  by_cases hperm : hasPermission u Module.inventory Permission.edit = false
  · left
    simp [adjustInventory, hperm]
  · have hperm' : hasPermission u Module.inventory Permission.edit = true := by
      simpa using hperm
    by_cases hz : (q == 0) = true
    · left
      simp [adjustInventory, hperm', hz]
    · have hz' : (q == 0) = false := by simpa using hz
      cases hfind : serviceGetById (fun it => it.id) db.inventory i with
      | none =>
        left
        simp [adjustInventory, hperm', hz', hfind]
      | some item =>
        have hmem : item ∈ db.inventory := List.mem_of_find?_eq_some hfind
        have hid : item.id = i := by
          have := List.find?_some hfind
          simpa using this
        by_cases hneg : item.quantity + q < 0
        · left
          simp [adjustInventory, hperm', hz', hfind, hneg]
        · right
          obtain ⟨pre, post, hdecomp, hupd⟩ :=
            serviceUpdate_decomp (fun x : InventoryItem => x.id)
              (fun x => { x with quantity := item.quantity + q }) db.inventory hwf.1
              item hmem
          have hres : adjustInventory db u i q r n =
              ({ db with
                  inventory := pre ++ { item with quantity := item.quantity + q } :: post
                  transactions := db.transactions ++
                    [{ id := db.nextId
                       materialId := item.materialId
                       type := TxType.adjustment
                       quantity := q
                       referenceId := none
                       notes := "调整原因: " ++ r ++ "。备注: " ++ jsStrOr n "无"
                       createdBy := "admin" }]
                  nextId := db.nextId + 1 }, none) := by
            simp only [adjustInventory, hperm', hz', Bool.true_eq_false,
              Bool.false_eq_true, if_false, hfind, hneg]
            rw [← hid, hupd, Option.getD_some]
          rw [hres]
          refine ⟨⟨?_, ?_⟩, item.materialId, ?_, ?_⟩
          · have hids : ((pre ++ { item with quantity := item.quantity + q } :: post).map
                fun x : InventoryItem => x.id) =
                ((pre ++ item :: post).map fun x : InventoryItem => x.id) := by
              simp
            show ((pre ++ { item with quantity := item.quantity + q } :: post).map
              fun x : InventoryItem => x.id).Nodup
            rw [hids, ← hdecomp]
            exact hwf.1
          · intro x hx
            have hx' : x.id < db.nextId := by
              rcases List.mem_append.mp hx with h | h
              · exact hwf.2 x (hdecomp ▸ List.mem_append_left _ h)
              · rcases List.mem_cons.mp h with h | h
                · rw [h]
                  exact hwf.2 item hmem
                · exact hwf.2 x (hdecomp ▸ List.mem_append_right _ (List.mem_cons_of_mem _ h))
            show x.id < db.nextId + 1
            omega
          · intro m
            simp only [itemSum, itemSumFor, hdecomp]
            simp only [List.map_append, List.map_cons, List.sum_append, List.sum_cons]
            by_cases hm : item.materialId = m
            · simp only [hm, if_pos rfl]
              simp
              omega
            · simp only [if_neg hm]
              omega
          · exact ⟨_, rfl, rfl, rfl, rfl⟩

/-- The quantity-mutating operations the inventory core performs:
stock-in application and manual adjustment. -/
inductive LedgerOp where
  | stockIn (orderRef : Option Nat) (materialId : Nat) (quantity : Int)
  | adjust (user : Option User) (itemId : Nat) (quantity : Int) (reason : String)
      (notes : Option String)

/-- Apply one operation; a rejected adjustment leaves the store as it
was (all its validations precede its first write). -/
def applyOp (db : DB) : LedgerOp → DB
  | LedgerOp.stockIn ref m q => updateInventory db ref m q
  | LedgerOp.adjust u i q r n => (adjustInventory db u i q r n).1

/-- Apply a sequence of operations in order. -/
def applyOps (db : DB) (ops : List LedgerOp) : DB :=
  ops.foldl applyOp db

/-- One step preserves well-formedness and the per-material balance
between the quantity record and the logged deltas. -/
theorem applyOp_preserves (db : DB) (op : LedgerOp) (m : Nat) (hwf : WF db)
    (hinv : itemSum m db = txSum m db) :
    WF (applyOp db op) ∧ itemSum m (applyOp db op) = txSum m (applyOp db op) := by
  cases op with
  | stockIn ref m0 q =>
    obtain ⟨hwf', hsum, t, htx, hmat, hq, -⟩ := updateInventory_step db ref m0 q hwf
    refine ⟨hwf', ?_⟩
    show itemSum m (updateInventory db ref m0 q) = txSum m (updateInventory db ref m0 q)
    rw [hsum m]
    show itemSum m db + (if m0 = m then q else 0) =
      txSumFor m (updateInventory db ref m0 q).transactions
    rw [htx, txSumFor_append_single, hmat, hq, hinv]
    rfl
  | adjust u i q r n =>
    show WF (adjustInventory db u i q r n).1 ∧
      itemSum m (adjustInventory db u i q r n).1 = txSum m (adjustInventory db u i q r n).1
    rcases adjustInventory_step db u i q r n hwf with heq | ⟨hwf', mid, hsum, t, htx, hmat, hq, -⟩
    · rw [heq]
      exact ⟨hwf, hinv⟩
    · refine ⟨hwf', ?_⟩
      rw [hsum m]
      show itemSum m db + (if mid = m then q else 0) =
        txSumFor m (adjustInventory db u i q r n).1.transactions
      rw [htx, txSumFor_append_single, hmat, hq, hinv]
      rfl

/-- The balance is preserved across any operation sequence. -/
theorem applyOps_preserves (ops : List LedgerOp) (db : DB) (m : Nat) (hwf : WF db)
    (hinv : itemSum m db = txSum m db) :
    WF (applyOps db ops) ∧ itemSum m (applyOps db ops) = txSum m (applyOps db ops) := by
  induction ops generalizing db with
  | nil => exact ⟨hwf, hinv⟩
  | cons op ops ih =>
    obtain ⟨hwf', hinv'⟩ := applyOp_preserves db op m hwf hinv
    exact ih (applyOp db op) hwf' hinv'

/-- C1: starting from a well-formed store holding no inventory record
and no transaction for material `m`, after any sequence of stock-in
applications and manual adjustments the recorded quantity for `m`
equals the sum of all logged deltas for `m`; moreover every single
operation either appends exactly one transaction whose signed delta
matches the quantity change it applied, or leaves the store unchanged
(rejected adjustment). -/
theorem ledger_reconciliation (ops : List LedgerOp) (db : DB) (m : Nat)
    (hwf : WF db)
    (hnoitem : ∀ it ∈ db.inventory, it.materialId ≠ m)
    (hnotx : ∀ t ∈ db.transactions, t.materialId ≠ m) :
    itemSum m (applyOps db ops) = txSum m (applyOps db ops) ∧
    (∀ (d : DB) (op : LedgerOp), WF d →
      (∃ t, (applyOp d op).transactions = d.transactions ++ [t] ∧
        itemSum t.materialId (applyOp d op) = itemSum t.materialId d + t.quantity) ∨
      applyOp d op = d) := by
  constructor
  · have hbase : itemSum m db = txSum m db := by
      have h1 : itemSum m db = 0 := by
        refine List.sum_eq_zero ?_
        intro x hx
        obtain ⟨it, hit, hx'⟩ := List.mem_map.mp hx
        rw [← hx', if_neg (hnoitem it hit)]
      have h2 : txSum m db = 0 := by
        refine List.sum_eq_zero ?_
        intro x hx
        obtain ⟨t, ht, hx'⟩ := List.mem_map.mp hx
        rw [← hx', if_neg (hnotx t ht)]
      rw [h1, h2]
    exact (applyOps_preserves ops db m hwf hbase).2
  · intro d op hwfd
    cases op with
    | stockIn ref m0 q =>
      obtain ⟨-, hsum, t, htx, hmat, hq, -⟩ := updateInventory_step d ref m0 q hwfd
      left
      refine ⟨t, htx, ?_⟩
      show itemSum t.materialId (updateInventory d ref m0 q) = _
      rw [hsum t.materialId, hmat, hq]
      simp
    | adjust u i q r n =>
      rcases adjustInventory_step d u i q r n hwfd with heq | ⟨-, mid, hsum, t, htx, hmat, hq, -⟩
      · right
        exact heq
      · left
        refine ⟨t, htx, ?_⟩
        show itemSum t.materialId (adjustInventory d u i q r n).1 = _
        rw [hsum t.materialId, hmat, hq]
        simp

/-- Empty store used by the C1 witness. -/
def dbEmpty : DB :=
  { materials := [{ id := 7, name := "电线", unit := "卷" }]
    inventory := []
    transactions := []
    stockInOrders := []
    stockInItems := []
    nextId := 1 }

/-- Operation sequence for the C1 witness: receive 5, then adjust -2. -/
def opsW : List LedgerOp :=
  [LedgerOp.stockIn none 7 5,
   LedgerOp.adjust (some adminBareUser) 1 (-2) "damage" none]

/-- Witness for C1: the hypotheses hold in the empty store, and after a
stock-in of 5 and an adjustment of -2 the quantity and the ledger total
agree. -/
theorem ledger_reconciliation_witness :
    WF dbEmpty ∧ (∀ it ∈ dbEmpty.inventory, it.materialId ≠ 7) ∧
    (∀ t ∈ dbEmpty.transactions, t.materialId ≠ 7) ∧
    itemSum 7 (applyOps dbEmpty opsW) = txSum 7 (applyOps dbEmpty opsW) :=
  ⟨⟨by decide, by decide⟩, by decide, by decide,
    (ledger_reconciliation opsW dbEmpty 7 ⟨by decide, by decide⟩ (by decide) (by decide)).1⟩

/-- One line of the stock-in form (`src/unnamed/part_005`); `materialId`
is a select whose empty value is falsy. -/
structure StockInFormItem where
  materialId : Option Nat
  quantity : Int
  unitPrice : Int
  totalPrice : Int
  notes : Option String
deriving DecidableEq, Repr

/-- The stock-in form state (`src/unnamed/part_005`). -/
structure StockInForm where
  orderNumber : String
  supplierId : Option Nat
  projectId : Option Nat
  orderDate : String
  status : OrderStatus
  notes : String
  items : List StockInFormItem
deriving DecidableEq, Repr

/-- Per-item validation of `validateForm`: material chosen, positive
quantity, positive unit price (`!x || x <= 0` on a JS number rejects
exactly the non-positive values). -/
def validItem (it : StockInFormItem) : Bool :=
  it.materialId.isSome && decide (0 < it.quantity) && decide (0 < it.unitPrice)

/-- `validateForm` (`src/unnamed/part_005` lines 187-214): supplier and
date present, at least one line, all lines valid. -/
def validateForm (form : StockInForm) : Bool :=
  form.supplierId.isSome && !(form.orderDate == "") && !form.items.isEmpty &&
    form.items.all validItem

/-- Error outcomes of `saveStockInOrder` (the silent validate return and
each `throw`). -/
inductive SaveError where
  | invalidForm
  | noSupplier
  | noDate
  | noItems
  | updateOrderFailed
  | itemIncomplete
  | itemBadQuantity
  | itemBadPrice
deriving DecidableEq, Repr

/-- The item-saving forEach of `saveStockInOrder` (lines 256-276): each
line creates a `StockInItem` and, when the selected status is
`completed`, immediately applies `updateInventory`.  A `throw` aborts
the remainder but keeps the writes already made (the surrounding
`try`/`catch` does not roll back). -/
def saveItemsLoop (orderId : Nat) (currentOrder : Option StockInOrderRec)
    (status : OrderStatus) : DB → List StockInFormItem → DB × Option SaveError
  | db, [] => (db, none)
  | db, item :: rest =>
    match item.materialId with
    | none => (db, some SaveError.itemIncomplete)
    | some mid =>
      if item.quantity ≤ 0 then (db, some SaveError.itemBadQuantity)
      else if item.unitPrice ≤ 0 then (db, some SaveError.itemBadPrice)
      else
        let db1 : DB :=
          { db with
              stockInItems := db.stockInItems ++
                [{ id := db.nextId, orderId := orderId, materialId := mid,
                   quantity := item.quantity, unitPrice := item.unitPrice,
                   totalPrice := item.totalPrice, notes := item.notes }]
              nextId := db.nextId + 1 }
        let db2 : DB :=
          if status = OrderStatus.completed then
            updateInventory db1 (currentOrder.map fun o => o.id) mid item.quantity
          else db1
        saveItemsLoop orderId currentOrder status db2 rest

/-- The `stockInData` spread applied by `stockInService.update`. -/
def mergeOrderData (orderNumber : String) (supplierId : Nat) (projectId : Option Nat)
    (orderDate : String) (status : OrderStatus) (notes : String)
    (o : StockInOrderRec) : StockInOrderRec :=
  { o with
      orderNumber := orderNumber
      supplierId := supplierId
      projectId := projectId
      orderDate := orderDate
      status := status
      notes := notes }

/-- `saveStockInOrder` (`src/unnamed/part_005` lines 217-324): validate,
then update the edited order (deleting its previous line items) or
create a new one, then run the item loop.  `genOrderNumber` stands for
the date-derived result of `generateOrderNumber()`.  Inside the loop,
`updateInventory` receives `currentOrder?.id` — the page state, which is
`null` in the create flow — not the id of the just-saved order. -/
def saveStockInOrder (db : DB) (isEditing : Bool) (currentOrder : Option StockInOrderRec)
    (genOrderNumber : String) (form : StockInForm) : DB × Option SaveError :=
  if validateForm form = false then (db, some SaveError.invalidForm)
  else
    match form.supplierId with
    | none => (db, some SaveError.noSupplier)
    | some supplierId =>
      if form.orderDate == "" then (db, some SaveError.noDate)
      else if form.items.isEmpty then (db, some SaveError.noItems)
      else
        let orderNumber := if form.orderNumber == "" then genOrderNumber else form.orderNumber
        match isEditing, currentOrder with
        | true, some cur =>
          match serviceUpdate (fun o : StockInOrderRec => o.id)
              (mergeOrderData orderNumber supplierId form.projectId form.orderDate
                form.status form.notes) cur.id db.stockInOrders with
          | none => (db, some SaveError.updateOrderFailed)
          | some orders1 =>
            let db1 : DB := { db with stockInOrders := orders1 }
            let existingItems := db1.stockInItems.filter fun it => it.orderId == cur.id
            let db2 : DB :=
              { db1 with
                  stockInItems := existingItems.foldl
                    (fun acc it => acc.filter fun x => !(x.id == it.id)) db1.stockInItems }
            saveItemsLoop cur.id currentOrder form.status db2 form.items
        | _, _ =>
          let newOrder : StockInOrderRec :=
            { id := db.nextId, orderNumber := orderNumber, supplierId := supplierId,
              projectId := form.projectId, orderDate := form.orderDate,
              status := form.status, notes := form.notes }
          let db1 : DB :=
            { db with
                stockInOrders := db.stockInOrders ++ [newOrder]
                nextId := db.nextId + 1 }
          saveItemsLoop newOrder.id currentOrder form.status db1 form.items

/-- Outcomes of `deleteStockInOrder`. -/
inductive DeleteOutcome where
  | permissionDenied
  | cancelled
  | deleted
  | deleteFailed
deriving DecidableEq, Repr

/-- `deleteStockInOrder` (`src/unnamed/part_005` lines 474-505):
permission gate on `('stock_in', 'delete')`, the confirm dialog, then
deletion of every line item of the order followed by deletion of the
header.  No inventory or transaction write occurs on any path. -/
def deleteStockInOrder (db : DB) (user : Option User) (confirmed : Bool) (orderId : Nat) :
    DB × DeleteOutcome :=
  if hasPermission user Module.stock_in Permission.delete = false then
    (db, DeleteOutcome.permissionDenied)
  else if confirmed = false then (db, DeleteOutcome.cancelled)
  else
    let orderItems := db.stockInItems.filter fun it => it.orderId == orderId
    let db1 : DB :=
      { db with
          stockInItems := orderItems.foldl
            (fun acc it => acc.filter fun x => !(x.id == it.id)) db.stockInItems }
    match serviceDelete (fun o : StockInOrderRec => o.id) db1.stockInOrders orderId with
    | some orders1 => ({ db1 with stockInOrders := orders1 }, DeleteOutcome.deleted)
    | none => (db1, DeleteOutcome.deleteFailed)

/-- Store for the C3 scenario: one material, nothing else. -/
def dbC3 : DB :=
  { materials := [{ id := 1, name := "电线", unit := "卷" }]
    inventory := []
    transactions := []
    stockInOrders := []
    stockInItems := []
    nextId := 10 }

/-- The C3 form: a new completed order with one line of quantity 5. -/
def formC3 : StockInForm :=
  { orderNumber := ""
    supplierId := some 3
    projectId := none
    orderDate := "2024-01-01"
    status := OrderStatus.completed
    notes := ""
    items := [{ materialId := some 1, quantity := 5, unitPrice := 2, totalPrice := 10,
                notes := none }] }

/-- C3, evaluated at its scenario: saving a new completed order with one
line of quantity 5 for a material without inventory succeeds, creates
the order (id 10), creates the inventory record with quantity 5 and
alert threshold 10, and records one `stock_in` transaction with delta
+5 — but its `referenceId` is `none` (the JS value `''` from
`currentOrder?.id || ''`), not the new order's id 10. -/
theorem stock_in_receipt_behavior :
    (saveStockInOrder dbC3 false none "RK20240101001" formC3).2 = none ∧
    ((saveStockInOrder dbC3 false none "RK20240101001" formC3).1.stockInOrders.map
      fun o => (o.id, o.status)) = [(10, OrderStatus.completed)] ∧
    ((saveStockInOrder dbC3 false none "RK20240101001" formC3).1.inventory.map
      fun it => (it.materialId, it.quantity, it.alertThreshold)) = [(1, 5, 10)] ∧
    ((saveStockInOrder dbC3 false none "RK20240101001" formC3).1.transactions.map
      fun t => (t.materialId, t.type, t.quantity, t.referenceId)) =
      [(1, TxType.stock_in, 5, none)] := by
  refine ⟨rfl, rfl, rfl, rfl⟩

/-- A left fold of filters only ever removes elements. -/
theorem foldl_filter_subset {α : Type} (getId : α → Nat) (l : List α) :
    ∀ (acc : List α) (x : α),
      x ∈ l.foldl (fun acc it => acc.filter fun y => !(getId y == getId it)) acc →
      x ∈ acc := by
  induction l with
  | nil => intro acc x hx; exact hx
  | cons hd tl ih =>
    intro acc x hx
    rw [List.foldl_cons] at hx
    exact (List.mem_filter.mp (ih _ x hx)).1

/-- After folding the deletions, no survivor shares an id with any
processed element. -/
theorem foldl_filter_removes {α : Type} (getId : α → Nat) (l : List α) :
    ∀ (acc : List α) (it : α), it ∈ l →
      ∀ x ∈ l.foldl (fun acc it2 => acc.filter fun y => !(getId y == getId it2)) acc,
        getId x ≠ getId it := by
  induction l with
  | nil => intro acc it hit; cases hit
  | cons hd tl ih =>
    intro acc it hit x hx
    rw [List.foldl_cons] at hx
    rcases List.mem_cons.mp hit with h | h
    · have hmem : x ∈ acc.filter fun y => !(getId y == getId hd) :=
        foldl_filter_subset getId tl _ x hx
      have hne := (List.mem_filter.mp hmem).2
      rw [h]
      intro hcon
      rw [hcon] at hne
      simp at hne
    · exact ih _ it h x hx

/-- A successful `serviceDelete` returns the filtered list. -/
theorem serviceDelete_some {α : Type} (getId : α → Nat) (items out : List α) (i : Nat)
    (h : serviceDelete getId items i = some out) :
    out = items.filter fun x => !(getId x == i) := by
  simp only [serviceDelete] at h
  split at h
  · cases h
  · exact (Option.some.inj h).symm

/-- A failed `serviceDelete` means no record carried the id. -/
theorem serviceDelete_none {α : Type} (getId : α → Nat) (items : List α) (i : Nat)
    (h : serviceDelete getId items i = none) :
    ∀ x ∈ items, getId x ≠ i := by
  simp only [serviceDelete] at h
  split at h
  · rename_i hlen
    have hlen2 : (items.filter fun x => !(getId x == i)).length = items.length := by
      have h2 : items.length = (items.filter fun x => !(getId x == i)).length := by
        simpa using hlen
      omega
    have hall : ∀ a ∈ items, (!(getId a == i)) = true := by
      clear h hlen
      induction items with
      | nil => simp
      | cons x xs ih =>
        rw [List.filter_cons] at hlen2
        by_cases hx : (!(getId x == i)) = true
        · rw [if_pos hx] at hlen2
          simp only [List.length_cons] at hlen2
          intro a ha
          rcases List.mem_cons.mp ha with h1 | h1
          · rw [h1]; exact hx
          · exact ih (by omega) a h1
        · rw [if_neg hx] at hlen2
          have := List.length_filter_le (fun x => !(getId x == i)) xs
          simp only [List.length_cons] at hlen2
          omega
    intro x hx
    have := hall x hx
    simpa using this
  · cases h

/-- C9: with the delete permission granted and the dialog confirmed,
deleting a stock-in order removes the header and every one of its line
items (each surviving line item is an original one of another order)
while the inventory collection and the transaction log are byte-for-byte
unchanged — no compensating entry is written, whatever the order's
status was. -/
theorem delete_stock_in_frame (db : DB) (user : Option User) (orderId : Nat)
    (hperm : hasPermission user Module.stock_in Permission.delete = true) :
    (deleteStockInOrder db user true orderId).1.inventory = db.inventory ∧
    (deleteStockInOrder db user true orderId).1.transactions = db.transactions ∧
    (∀ it ∈ (deleteStockInOrder db user true orderId).1.stockInItems,
      it ∈ db.stockInItems ∧ it.orderId ≠ orderId) ∧
    (∀ o ∈ (deleteStockInOrder db user true orderId).1.stockInOrders, o.id ≠ orderId) := by
  have hitems2 : ∀ x ∈ (db.stockInItems.filter fun it => it.orderId == orderId).foldl
      (fun acc it => acc.filter fun y => !(y.id == it.id)) db.stockInItems,
      x ∈ db.stockInItems ∧ x.orderId ≠ orderId := by
    intro x hx
    have hsub : x ∈ db.stockInItems :=
      foldl_filter_subset (fun it : StockInItemRec => it.id) _ _ x hx
    refine ⟨hsub, ?_⟩
    intro hcon
    have hxin : x ∈ db.stockInItems.filter fun it => it.orderId == orderId :=
      List.mem_filter.mpr ⟨hsub, by simp [hcon]⟩
    exact foldl_filter_removes (fun it : StockInItemRec => it.id) _ _ x hxin x hx rfl
  unfold deleteStockInOrder
  rw [hperm]
  simp only [Bool.true_eq_false, if_false]
  cases hdel : serviceDelete (fun o : StockInOrderRec => o.id) db.stockInOrders orderId with
  | some orders1 =>
    refine ⟨rfl, rfl, hitems2, ?_⟩
    intro o ho
    rw [serviceDelete_some (fun o : StockInOrderRec => o.id) db.stockInOrders orders1
      orderId hdel] at ho
    have := (List.mem_filter.mp ho).2
    simpa using this
  | none =>
    refine ⟨rfl, rfl, hitems2, ?_⟩
    intro o ho
    exact serviceDelete_none (fun o : StockInOrderRec => o.id) db.stockInOrders orderId
      hdel o ho

/-- Store for the C9 witness: one completed order with one line item,
plus the inventory and transaction it produced. -/
def dbDel : DB :=
  { materials := [{ id := 7, name := "电线", unit := "卷" }]
    inventory := [{ id := 1, materialId := 7, quantity := 5, alertThreshold := 10 }]
    transactions := [{ id := 2, materialId := 7, type := TxType.stock_in, quantity := 5,
                       referenceId := none, notes := "入库", createdBy := "admin" }]
    stockInOrders := [{ id := 3, orderNumber := "RK20240101001", supplierId := 3,
                        projectId := none, orderDate := "2024-01-01",
                        status := OrderStatus.completed, notes := "" }]
    stockInItems := [{ id := 4, orderId := 3, materialId := 7, quantity := 5,
                       unitPrice := 2, totalPrice := 10, notes := none }]
    nextId := 5 }

/-- Witness for C9: deleting the completed order 3 leaves the inventory
and the transaction log untouched and removes the header. -/
theorem delete_stock_in_frame_witness :
    hasPermission (some adminBareUser) Module.stock_in Permission.delete = true ∧
    (deleteStockInOrder dbDel (some adminBareUser) true 3).1.inventory = dbDel.inventory ∧
    (deleteStockInOrder dbDel (some adminBareUser) true 3).1.transactions =
      dbDel.transactions ∧
    (∀ o ∈ (deleteStockInOrder dbDel (some adminBareUser) true 3).1.stockInOrders,
      o.id ≠ 3) :=
  ⟨by decide,
    (delete_stock_in_frame dbDel (some adminBareUser) 3 (by decide)).1,
    (delete_stock_in_frame dbDel (some adminBareUser) 3 (by decide)).2.1,
    (delete_stock_in_frame dbDel (some adminBareUser) 3 (by decide)).2.2.2⟩

/-- Sum of the form quantities aimed at one material. -/
def formItemsSum (m : Nat) (items : List StockInFormItem) : Int :=
  (items.map fun it => if it.materialId = some m then it.quantity else 0).sum

/-- Unfolding `formItemsSum` over a cons. -/
theorem formItemsSum_cons (m : Nat) (item : StockInFormItem) (rest : List StockInFormItem) :
    formItemsSum m (item :: rest) =
      (if item.materialId = some m then item.quantity else 0) + formItemsSum m rest := by
  simp [formItemsSum]

/-- `serviceUpdate` succeeds whenever some record carries the id. -/
theorem serviceUpdate_isSome {α : Type} (getId : α → Nat) (merge : α → α) (i : Nat)
    (items : List α) (h : ∃ x ∈ items, getId x = i) :
    ∃ out, serviceUpdate getId merge i items = some out := by
  induction items with
  | nil =>
    obtain ⟨x, hx, -⟩ := h
    cases hx
  | cons y ys ih =>
    by_cases hy : (getId y == i) = true
    · exact ⟨merge y :: ys, by simp [serviceUpdate, hy]⟩
    · have hy' : (getId y == i) = false := by simpa using hy
      obtain ⟨x, hx, hxi⟩ := h
      rcases List.mem_cons.mp hx with h1 | h1
      · exfalso
        apply hy
        rw [h1] at hxi
        simp [hxi]
      · obtain ⟨out, hout⟩ := ih ⟨x, h1, hxi⟩
        exact ⟨y :: out, by simp [serviceUpdate, hy', hout]⟩

/-- The item loop of a completed save succeeds on validated lines and,
for every line, appends one `stock_in` transaction and adds the line's
quantity to its material's recorded quantity. -/
theorem saveItemsLoop_completed (orderId : Nat) (cur : Option StockInOrderRec)
    (items : List StockInFormItem) :
    ∀ db : DB, WF db → (∀ it ∈ items, validItem it = true) →
      (saveItemsLoop orderId cur OrderStatus.completed db items).2 = none ∧
      WF (saveItemsLoop orderId cur OrderStatus.completed db items).1 ∧
      (∃ txs, (saveItemsLoop orderId cur OrderStatus.completed db items).1.transactions =
          db.transactions ++ txs ∧ txs.length = items.length ∧
          ∀ t ∈ txs, t.type = TxType.stock_in) ∧
      (∀ m, itemSum m (saveItemsLoop orderId cur OrderStatus.completed db items).1 =
        itemSum m db + formItemsSum m items) := by
  induction items with
  | nil =>
    intro db hwf hval
    refine ⟨rfl, hwf, ⟨[], by simp [saveItemsLoop], rfl, by simp⟩, ?_⟩
    intro m
    simp [saveItemsLoop, formItemsSum]
  | cons item rest ih =>
    intro db hwf hval
    have hv := hval item (List.mem_cons_self _ _)
    simp only [validItem, Bool.and_eq_true, decide_eq_true_eq] at hv
    obtain ⟨⟨hsome, hq⟩, hp⟩ := hv
    obtain ⟨mid, hmid⟩ := Option.isSome_iff_exists.mp hsome
    have hstep : saveItemsLoop orderId cur OrderStatus.completed db (item :: rest) =
        saveItemsLoop orderId cur OrderStatus.completed
          (updateInventory
            { db with
                stockInItems := db.stockInItems ++
                  [{ id := db.nextId, orderId := orderId, materialId := mid,
                     quantity := item.quantity, unitPrice := item.unitPrice,
                     totalPrice := item.totalPrice, notes := item.notes }]
                nextId := db.nextId + 1 }
            (cur.map fun o => o.id) mid item.quantity) rest := by
      simp only [saveItemsLoop, hmid]
      rw [if_neg (by omega), if_neg (by omega)]
      simp
    have hwf1 : WF { db with
        stockInItems := db.stockInItems ++
          [{ id := db.nextId, orderId := orderId, materialId := mid,
             quantity := item.quantity, unitPrice := item.unitPrice,
             totalPrice := item.totalPrice, notes := item.notes }]
        nextId := db.nextId + 1 } := by
      refine ⟨hwf.1, ?_⟩
      intro it hit
      have := hwf.2 it hit
      show it.id < db.nextId + 1
      omega
    obtain ⟨hwfU, hsum, t, htx, hmat, hq2, htype⟩ :=
      updateInventory_step _ (cur.map fun o => o.id) mid item.quantity hwf1
    obtain ⟨hnone, hwf2, ⟨txs, htxs, hlen, htys⟩, hsums⟩ :=
      ih _ hwfU (fun it hit => hval it (List.mem_cons_of_mem _ hit))
    rw [hstep]
    refine ⟨hnone, hwf2, ⟨t :: txs, ?_, ?_, ?_⟩, ?_⟩
    · rw [htxs, htx]
      show (db.transactions ++ [t]) ++ txs = db.transactions ++ (t :: txs)
      simp
    · simp [hlen]
    · intro t2 ht2
      rcases List.mem_cons.mp ht2 with h1 | h1
      · rw [h1]; exact htype
      · exact htys t2 h1
    · intro m
      rw [hsums m, hsum m, formItemsSum_cons, hmid]
      have hdb1 : itemSum m { db with
          stockInItems := db.stockInItems ++
            [{ id := db.nextId, orderId := orderId, materialId := mid,
               quantity := item.quantity, unitPrice := item.unitPrice,
               totalPrice := item.totalPrice, notes := item.notes }]
          nextId := db.nextId + 1 } = itemSum m db := rfl
      rw [hdb1]
      by_cases hm : mid = m
      · simp only [hm, if_pos rfl, Option.some.injEq]
        simp
        omega
      · have : ¬(some mid = some m) := by
          intro hcon
          exact hm (Option.some.inj hcon)
        rw [if_neg hm, if_neg this]
        omega

/-- C10: re-saving an existing order with the completed status applies
the inventory increment for every line again, whatever the store already
holds: the save succeeds, appends one `stock_in` transaction per line,
and adds each line's quantity to its material's recorded quantity a
further time — nothing checks whether the order was applied before. -/
theorem resave_completed_order_reapplies (db : DB) (cur : StockInOrderRec)
    (form : StockInForm) (gen : String) (hwf : WF db)
    (hvalid : validateForm form = true)
    (hcomp : form.status = OrderStatus.completed)
    (hord : ∃ o ∈ db.stockInOrders, o.id = cur.id) :
    (saveStockInOrder db true (some cur) gen form).2 = none ∧
    (∃ txs, (saveStockInOrder db true (some cur) gen form).1.transactions =
        db.transactions ++ txs ∧ txs.length = form.items.length ∧
        ∀ t ∈ txs, t.type = TxType.stock_in) ∧
    (∀ m, itemSum m (saveStockInOrder db true (some cur) gen form).1 =
      itemSum m db + formItemsSum m form.items) := by
  have hv := hvalid
  simp only [validateForm, Bool.and_eq_true, Bool.not_eq_true'] at hv
  obtain ⟨⟨⟨hsup, hdate⟩, hnonempty⟩, hall⟩ := hv
  obtain ⟨sid, hsid⟩ := Option.isSome_iff_exists.mp hsup
  obtain ⟨orders1, hupd⟩ := serviceUpdate_isSome (fun o : StockInOrderRec => o.id)
    (mergeOrderData (if form.orderNumber == "" then gen else form.orderNumber) sid
      form.projectId form.orderDate form.status form.notes) cur.id db.stockInOrders hord
  have hred : saveStockInOrder db true (some cur) gen form =
      saveItemsLoop cur.id (some cur) form.status
        { db with
            stockInOrders := orders1
            stockInItems := (db.stockInItems.filter fun it => it.orderId == cur.id).foldl
              (fun acc it => acc.filter fun x => !(x.id == it.id)) db.stockInItems }
        form.items := by
    simp only [saveStockInOrder, hvalid, hsid, hdate, hnonempty, Bool.true_eq_false,
      Bool.false_eq_true, if_false]
    rw [hupd]
  rw [hred, hcomp]
  have hwf2 : WF { db with
      stockInOrders := orders1
      stockInItems := (db.stockInItems.filter fun it => it.orderId == cur.id).foldl
        (fun acc it => acc.filter fun x => !(x.id == it.id)) db.stockInItems } :=
    ⟨hwf.1, hwf.2⟩
  obtain ⟨hnone, -, ⟨txs, htxs, hlen, htys⟩, hsums⟩ :=
    saveItemsLoop_completed cur.id (some cur) form.items _ hwf2
      (List.all_eq_true.mp hall)
  exact ⟨hnone, ⟨txs, htxs, hlen, htys⟩, fun m => hsums m⟩

/-- Result of first saving the C3 order (create flow). -/
def firstSave : DB × Option SaveError :=
  saveStockInOrder dbC3 false none "RK20240101001" formC3

/-- The order created by `firstSave`. -/
def createdOrder : StockInOrderRec :=
  { id := 10, orderNumber := "RK20240101001", supplierId := 3, projectId := none,
    orderDate := "2024-01-01", status := OrderStatus.completed, notes := "" }

/-- Witness for C10: after the first completed save put quantity 5 in
stock, editing and re-saving the same order adds the 5 again. -/
theorem resave_completed_order_reapplies_witness :
    WF firstSave.1 ∧ validateForm formC3 = true ∧
    formC3.status = OrderStatus.completed ∧
    (∃ o ∈ firstSave.1.stockInOrders, o.id = createdOrder.id) ∧
    itemSum 1 (saveStockInOrder firstSave.1 true (some createdOrder)
      "RK20240101002" formC3).1 = itemSum 1 firstSave.1 + formItemsSum 1 formC3.items :=
  ⟨⟨by decide, by decide⟩, by decide, rfl, by decide,
    (resave_completed_order_reapplies firstSave.1 createdOrder formC3 "RK20240101002"
      ⟨by decide, by decide⟩ (by decide) rfl (by decide)).2.2 1⟩

end Kucun
